import Mathlib

/-!
Verification of the book-outliner module
(`src/agents/book-writer/writing/outliner.py`).

The embedding models Python strings as lists of characters (`Str`).
`json.loads` is modelled by an executable recursive-descent parser
(`parseJson`) over a JSON value type whose numbers are integers and whose
objects are association lists; `json` serialization is modelled by a
compact canonical serializer (`serialize`).  The regex-based extraction
strategies of `_parse_json_response` are modelled by direct scanning
functions whose behaviour matches the non-greedy / greedy patterns used in
the source (see the comments at each definition).
-/

/-- Python strings are modelled as lists of characters. -/
abbrev Str := List Char

/-- The backquote character, used by markdown code fences. -/
def backquote : Char := Char.ofNat 96

/-- The opening-brace character. -/
def lbrace : Char := Char.ofNat 123

/-- The closing-brace character. -/
def rbrace : Char := Char.ofNat 125

/-- Whitespace as recognised by Python's `str.strip` and the regex class
used in `_parse_json_response` (space, tab, newline, carriage return,
vertical tab, form feed). -/
def isPyWs (c : Char) : Bool :=
  c = ' ' || c = '\t' || c = '\n' || c = '\r' || c = Char.ofNat 11 || c = Char.ofNat 12

/-- Whitespace accepted between tokens by the JSON grammar. -/
def isJsonWs (c : Char) : Bool :=
  c = ' ' || c = '\t' || c = '\n' || c = '\r'

/-- Python `str.strip()`: drop leading and trailing whitespace. -/
def stripChars (s : Str) : Str :=
  ((s.dropWhile isPyWs).reverse.dropWhile isPyWs).reverse

/-- Skip JSON inter-token whitespace. -/
def skipWs : Str → Str
  | [] => []
  | c :: r => if isJsonWs c then skipWs r else c :: r

/-- JSON values as returned by `json.loads`.  Numbers are modelled as
integers (the module never relies on fractional numbers) and objects as
association lists in textual order. -/
inductive Json where
  | null : Json
  | bool : Bool → Json
  | num : Int → Json
  | str : String → Json
  | arr : List Json → Json
  | obj : List (String × Json) → Json

/-- JSON string escapes understood by the model parser. -/
def unescape (e : Char) : Option Char :=
  if e = '"' then some '"'
  else if e = '\\' then some '\\'
  else if e = '/' then some '/'
  else if e = 'n' then some '\n'
  else if e = 't' then some '\t'
  else if e = 'r' then some '\r'
  else if e = 'b' then some (Char.ofNat 8)
  else if e = 'f' then some (Char.ofNat 12)
  else none

/-- Parse the body of a JSON string after the opening quote; returns the
decoded characters and the remaining input after the closing quote. -/
def parseStrAux : Str → Option (Str × Str)
  | [] => none
  | c :: r =>
    if c = '"' then some ([], r)
    else if c = '\\' then
      match r with
      | [] => none
      | e :: r2 =>
        match unescape e with
        | none => none
        | some c2 => (parseStrAux r2).map fun p => (c2 :: p.1, p.2)
    else (parseStrAux r).map fun p => (c :: p.1, p.2)

/-- Numeric value of a digit character. -/
def digitVal (c : Char) : Nat := c.toNat - 48

/-- Consume a maximal run of digits, accumulating their value. -/
def parseDigits : Str → Nat → Nat × Str
  | [], acc => (acc, [])
  | c :: r, acc => if c.isDigit then parseDigits r (acc * 10 + digitVal c) else (acc, c :: r)

mutual

/-- Fueled recursive-descent parser for a JSON value (model of the
grammar accepted by `json.loads`). -/
def parseVal : Nat → Str → Option (Json × Str)
  | 0, _ => none
  | n + 1, s0 =>
    let s := skipWs s0
    if ("null".data).isPrefixOf s then some (.null, s.drop 4)
    else if ("true".data).isPrefixOf s then some (.bool true, s.drop 4)
    else if ("false".data).isPrefixOf s then some (.bool false, s.drop 5)
    else
      match s with
      | [] => none
      | c :: r =>
        if c = '"' then (parseStrAux r).map fun p => (.str (String.mk p.1), p.2)
        else if c = '-' then
          match r with
          | [] => none
          | d :: _ =>
            if d.isDigit then
              let p := parseDigits r 0
              some (.num (-(p.1 : Int)), p.2)
            else none
        else if c = '[' then
          match skipWs r with
          | [] => none
          | c2 :: r2 =>
            if c2 = ']' then some (.arr [], r2)
            else (parseItems n (c2 :: r2)).map fun p => (.arr p.1, p.2)
        else if c = lbrace then
          match skipWs r with
          | [] => none
          | c2 :: r2 =>
            if c2 = rbrace then some (.obj [], r2)
            else (parseMembers n (c2 :: r2)).map fun p => (.obj p.1, p.2)
        else if c.isDigit then
          let p := parseDigits (c :: r) 0
          some (.num (p.1 : Int), p.2)
        else none
termination_by structural n => n

/-- Parse the elements of a non-empty JSON array up to the closing bracket. -/
def parseItems : Nat → Str → Option (List Json × Str)
  | 0, _ => none
  | n + 1, s =>
    match parseVal n s with
    | none => none
    | some (v, r) =>
      match skipWs r with
      | [] => none
      | c :: r2 =>
        if c = ',' then
          match parseItems n r2 with
          | none => none
          | some (vs, r3) => some (v :: vs, r3)
        else if c = ']' then some ([v], r2)
        else none
termination_by structural n => n

/-- Parse the members of a non-empty JSON object up to the closing brace. -/
def parseMembers : Nat → Str → Option (List (String × Json) × Str)
  | 0, _ => none
  | n + 1, s =>
    match skipWs s with
    | [] => none
    | c :: r =>
      if c = '"' then
        match parseStrAux r with
        | none => none
        | some (k, r1) =>
          match skipWs r1 with
          | [] => none
          | c2 :: r2 =>
            if c2 = ':' then
              match parseVal n r2 with
              | none => none
              | some (v, r3) =>
                match skipWs r3 with
                | [] => none
                | c3 :: r4 =>
                  if c3 = ',' then
                    match parseMembers n r4 with
                    | none => none
                    | some (ms, r5) => some ((String.mk k, v) :: ms, r5)
                  else if c3 = rbrace then some ([(String.mk k, v)], r4)
                  else none
            else none
      else none
termination_by structural n => n

end

/-- Model of `json.loads`: parse one JSON value and require that only
whitespace follows it. -/
def parseJson (s : Str) : Option Json :=
  match parseVal (s.length + 1) s with
  | some (v, rest) => if skipWs rest = [] then some v else none
  | none => none

/-- The decimal digit characters. -/
def digitChar : Nat → Char
  | 0 => '0'
  | 1 => '1'
  | 2 => '2'
  | 3 => '3'
  | 4 => '4'
  | 5 => '5'
  | 6 => '6'
  | 7 => '7'
  | 8 => '8'
  | _ => '9'

/-- Fueled decimal rendering of a natural number (most significant digit
first, accumulated on the right). -/
def natReprAux : Nat → Nat → Str → Str
  | 0, _, acc => acc
  | f + 1, n, acc =>
    if n < 10 then digitChar n :: acc
    else natReprAux f (n / 10) (digitChar (n % 10) :: acc)

/-- Decimal rendering of a natural number. -/
def natRepr (n : Nat) : Str := natReprAux (n + 1) n []

/-- Decimal rendering of an integer. -/
def intRepr (i : Int) : Str :=
  if i < 0 then '-' :: natRepr i.natAbs else natRepr i.natAbs

/-- Serialize one character of a JSON string, escaping quotes and
backslashes. -/
def escChar (c : Char) : Str :=
  if c = '"' then ['\\', '"'] else if c = '\\' then ['\\', '\\'] else [c]

/-- Serialize the characters of a JSON string body. -/
def escapeChars : Str → Str
  | [] => []
  | c :: r => escChar c ++ escapeChars r

mutual

/-- Compact canonical JSON serializer (model of `json.dumps` up to
insignificant whitespace). -/
def serVal : Json → Str
  | .null => "null".data
  | .bool true => "true".data
  | .bool false => "false".data
  | .num i => intRepr i
  | .str s => '"' :: escapeChars s.data ++ ['"']
  | .arr [] => ['[', ']']
  | .arr (v :: vs) => '[' :: serVal v ++ serItemsRest vs
  | .obj [] => [lbrace, rbrace]
  | .obj (m :: ms) => lbrace :: serMember m ++ serMembersRest ms

/-- Serialize the remaining elements of an array, including the closing
bracket. -/
def serItemsRest : List Json → Str
  | [] => [']']
  | v :: vs => ',' :: serVal v ++ serItemsRest vs

/-- Serialize one object member. -/
def serMember : String × Json → Str
  | (k, v) => '"' :: escapeChars k.data ++ '"' :: ':' :: serVal v

/-- Serialize the remaining members of an object, including the closing
brace. -/
def serMembersRest : List (String × Json) → Str
  | [] => [rbrace]
  | m :: ms => ',' :: serMember m ++ serMembersRest ms

end

/-- Model of `json.dumps` on a parsed value. -/
def serialize (v : Json) : Str := serVal v

/-! ### Supporting lemmas for the parser/serializer round trip -/

@[simp] theorem null_data : "null".data = ['n', 'u', 'l', 'l'] := rfl

@[simp] theorem true_data : "true".data = ['t', 'r', 'u', 'e'] := rfl

@[simp] theorem false_data : "false".data = ['f', 'a', 'l', 's', 'e'] := rfl

theorem skipWs_cons (c : Char) (r : Str) (h : isJsonWs c = false) :
    skipWs (c :: r) = c :: r := by
  simp [skipWs, h]

theorem isPrefixOf_self_append (l r : Str) : l.isPrefixOf (l ++ r) = true := by
  induction l with
  | nil => simp [List.isPrefixOf]
  | cons c t ih => simp [List.isPrefixOf, ih]

theorem isPrefixOf_cons_ne {a b : Char} (as bs : Str) (h : a ≠ b) :
    (a :: as).isPrefixOf (b :: bs) = false := by
  simp [List.isPrefixOf, h]

theorem ne_of_isDigit {c x : Char} (hx : x.isDigit = false) (h : c.isDigit = true) :
    c ≠ x := by
  intro he; subst he; rw [h] at hx; cases hx

theorem isJsonWs_of_isDigit {c : Char} (h : c.isDigit = true) : isJsonWs c = false := by
  have h1 := ne_of_isDigit (x := ' ') (by decide) h
  have h2 := ne_of_isDigit (x := '\t') (by decide) h
  have h3 := ne_of_isDigit (x := '\n') (by decide) h
  have h4 := ne_of_isDigit (x := '\r') (by decide) h
  simp [isJsonWs, h1, h2, h3, h4]

theorem digitChar_isDigit (m : Nat) : (digitChar m).isDigit = true := by
  unfold digitChar
  split <;> decide

theorem digitVal_digitChar {m : Nat} (h : m < 10) : digitVal (digitChar m) = m := by
  interval_cases m <;> decide

theorem natReprAux_append (f : Nat) : ∀ n acc, natReprAux f n acc = natReprAux f n [] ++ acc := by
  induction f with
  | zero => intro n acc; simp [natReprAux]
  | succ f ih =>
    intro n acc
    by_cases h : n < 10
    · simp [natReprAux, h]
    · simp only [natReprAux, h, if_false]
      rw [ih (n / 10) (digitChar (n % 10) :: acc), ih (n / 10) [digitChar (n % 10)],
        List.append_assoc]
      rfl

theorem natReprAux_canon (n : Nat) : ∀ f acc, 0 < f → n < 10 ^ f →
    natReprAux f n acc = natRepr n ++ acc := by
  induction n using Nat.strong_induction_on with
  | _ n ih =>
    intro f acc hf hn
    obtain ⟨f, rfl⟩ : ∃ f', f = f' + 1 := ⟨f - 1, by omega⟩
    by_cases h : n < 10
    · simp [natReprAux, h, natRepr]
    · have hf1 : 0 < f := by
        rcases Nat.eq_zero_or_pos f with h0 | h0
        · subst h0; simp at hn; omega
        · exact h0
      have hdiv : n / 10 < 10 ^ f := by
        rw [Nat.div_lt_iff_lt_mul (by norm_num)]
        calc n < 10 ^ (f + 1) := hn
          _ = 10 ^ f * 10 := by ring
      have hlt : n / 10 < n := Nat.div_lt_self (by omega) (by norm_num)
      have hself : n / 10 < 10 ^ n :=
        lt_of_lt_of_le hlt (le_of_lt (Nat.lt_pow_self (by norm_num) n))
      simp only [natReprAux, h, if_false]
      rw [ih (n / 10) hlt f (digitChar (n % 10) :: acc) hf1 hdiv]
      have hrhs : natRepr n = natRepr (n / 10) ++ [digitChar (n % 10)] := by
        rw [natRepr]
        show natReprAux (n + 1) n [] = _
        rw [natReprAux, if_neg h, ih (n / 10) hlt n [digitChar (n % 10)] (by omega) hself]
      rw [hrhs, List.append_assoc]
      rfl

theorem natRepr_small {n : Nat} (h : n < 10) : natRepr n = [digitChar n] := by
  rw [natRepr]
  show natReprAux (n + 1) n [] = _
  rw [natReprAux, if_pos h]

theorem natRepr_big {n : Nat} (h : 10 ≤ n) :
    natRepr n = natRepr (n / 10) ++ [digitChar (n % 10)] := by
  have hself : n / 10 < 10 ^ n := by
    have h1 : n / 10 < n := Nat.div_lt_self (by omega) (by norm_num)
    exact lt_of_lt_of_le h1 (le_of_lt (Nat.lt_pow_self (by norm_num) n))
  rw [natRepr]
  show natReprAux (n + 1) n [] = _
  rw [natReprAux, if_neg (by omega), natReprAux_canon (n / 10) n [digitChar (n % 10)]
    (by omega) hself]

theorem natRepr_digits (n : Nat) : ∀ c ∈ natRepr n, c.isDigit = true := by
  induction n using Nat.strong_induction_on with
  | _ n ih =>
    by_cases h : n < 10
    · rw [natRepr_small h]
      intro c hc
      simp at hc
      subst hc
      exact digitChar_isDigit n
    · rw [natRepr_big (by omega)]
      intro c hc
      rcases List.mem_append.mp hc with h1 | h2
      · exact ih (n / 10) (Nat.div_lt_self (by omega) (by norm_num)) c h1
      · simp at h2
        subst h2
        exact digitChar_isDigit (n % 10)

theorem natRepr_ne_nil (n : Nat) : natRepr n ≠ [] := by
  by_cases h : n < 10
  · rw [natRepr_small h]; simp
  · rw [natRepr_big (by omega)]; simp

/-- Digit-run accumulation as performed by `parseDigits`. -/
def foldDigits (acc : Nat) (ds : Str) : Nat :=
  ds.foldl (fun a c => a * 10 + digitVal c) acc

/-- The first character, if any, is not a digit. -/
def noDigitHead : Str → Prop
  | [] => True
  | c :: _ => c.isDigit = false

theorem parseDigits_append (ds : Str) : ∀ acc rest, (∀ c ∈ ds, c.isDigit = true) →
    noDigitHead rest → parseDigits (ds ++ rest) acc = (foldDigits acc ds, rest) := by
  induction ds with
  | nil =>
    intro acc rest _ hrest
    cases rest with
    | nil => simp [parseDigits, foldDigits]
    | cons c r =>
      have : c.isDigit = false := hrest
      simp [parseDigits, this, foldDigits]
  | cons d ds ih =>
    intro acc rest hds hrest
    have hd : d.isDigit = true := hds d (by simp)
    simp only [List.cons_append, parseDigits, hd, if_true]
    show parseDigits (ds ++ rest) (acc * 10 + digitVal d) = (foldDigits acc (d :: ds), rest)
    rw [ih (acc * 10 + digitVal d) rest (fun c hc => hds c (by simp [hc])) hrest]
    rfl

theorem foldDigits_natRepr (n : Nat) : ∀ acc,
    foldDigits acc (natRepr n) = acc * 10 ^ (natRepr n).length + n := by
  induction n using Nat.strong_induction_on with
  | _ n ih =>
    intro acc
    by_cases h : n < 10
    · rw [natRepr_small h]
      simp [foldDigits, digitVal_digitChar h]
    · rw [natRepr_big (by omega)]
      have hlt : n / 10 < n := Nat.div_lt_self (by omega) (by norm_num)
      simp only [foldDigits, List.foldl_append, List.foldl_cons, List.foldl_nil,
        List.length_append, List.length_cons, List.length_nil]
      rw [show List.foldl (fun a c => a * 10 + digitVal c) acc (natRepr (n / 10))
          = foldDigits acc (natRepr (n / 10)) from rfl, ih (n / 10) hlt acc,
        digitVal_digitChar (Nat.mod_lt n (by norm_num))]
      rw [pow_succ]
      have := Nat.div_add_mod n 10
      ring_nf
      omega

theorem parseDigits_natRepr (n : Nat) (rest : Str) (hrest : noDigitHead rest) :
    parseDigits (natRepr n ++ rest) 0 = (n, rest) := by
  rw [parseDigits_append (natRepr n) 0 rest (natRepr_digits n) hrest,
    foldDigits_natRepr n 0]
  simp

theorem parseStrAux_escape (sd : Str) : ∀ rest, parseStrAux (escapeChars sd ++ '"' :: rest) = some (sd, rest) := by
  induction sd with
  | nil => intro rest; rw [escapeChars, List.nil_append, parseStrAux.eq_def]; simp
  | cons c sd ih =>
    intro rest
    by_cases h1 : c = '"'
    · subst h1
      rw [escapeChars, escChar, if_pos rfl, List.append_assoc, List.cons_append,
        List.cons_append, List.nil_append, parseStrAux.eq_def]
      simp [unescape, ih]
    · by_cases h2 : c = '\\'
      · subst h2
        rw [escapeChars, escChar, if_neg (by decide), if_pos rfl, List.append_assoc,
          List.cons_append, List.cons_append, List.nil_append, parseStrAux.eq_def]
        simp [unescape, ih]
      · rw [escapeChars, escChar, if_neg h1, if_neg h2, List.append_assoc,
          List.cons_append, List.nil_append, parseStrAux.eq_def]
        simp [h1, h2, ih]

/-- The first character, if any, closes the enclosing array or object. -/
def restOk : Str → Prop
  | [] => True
  | c :: _ => c = ',' ∨ c = ']' ∨ c = rbrace

theorem restOk_noDigitHead {rest : Str} (h : restOk rest) : noDigitHead rest := by
  cases rest with
  | nil => trivial
  | cons c r =>
    show c.isDigit = false
    rcases h with h | h | h <;> subst h <;> decide

theorem parseVal_natRepr (n m : Nat) (rest : Str) (hrest : noDigitHead rest) :
    parseVal (n + 1) (natRepr m ++ rest) = some (.num (m : Int), rest) := by
  obtain ⟨d, ds, hds⟩ := List.exists_cons_of_ne_nil (natRepr_ne_nil m)
  have hd : d.isDigit = true := natRepr_digits m d (by rw [hds]; exact List.mem_cons_self d ds)
  have hws := isJsonWs_of_isDigit hd
  rw [hds, List.cons_append]
  simp only [parseVal]
  rw [skipWs_cons d (ds ++ rest) hws]
  rw [isPrefixOf_cons_ne _ _ (Ne.symm (ne_of_isDigit (by decide) hd)),
    isPrefixOf_cons_ne _ _ (Ne.symm (ne_of_isDigit (by decide) hd)),
    isPrefixOf_cons_ne _ _ (Ne.symm (ne_of_isDigit (by decide) hd))]
  simp only [Bool.false_eq_true, if_false]
  rw [if_neg (ne_of_isDigit (by decide) hd), if_neg (ne_of_isDigit (by decide) hd),
    if_neg (ne_of_isDigit (by decide) hd), if_neg (ne_of_isDigit (by decide) hd),
    if_pos hd]
  rw [← List.cons_append, ← hds, parseDigits_natRepr m rest hrest]

theorem parseVal_intRepr (n : Nat) (i : Int) (rest : Str) (hrest : noDigitHead rest) :
    parseVal (n + 1) (intRepr i ++ rest) = some (.num i, rest) := by
  rcases lt_or_le i 0 with hneg | hpos
  · rw [intRepr, if_pos hneg, List.cons_append]
    obtain ⟨d, ds, hds⟩ := List.exists_cons_of_ne_nil (natRepr_ne_nil i.natAbs)
    have hd : d.isDigit = true :=
      natRepr_digits i.natAbs d (by rw [hds]; exact List.mem_cons_self d ds)
    have hval : -((i.natAbs : Nat) : Int) = i := by omega
    rw [hds, List.cons_append]
    simp only [parseVal]
    rw [skipWs_cons '-' _ (by decide)]
    rw [isPrefixOf_cons_ne _ _ (by decide), isPrefixOf_cons_ne _ _ (by decide),
      isPrefixOf_cons_ne _ _ (by decide)]
    simp only [Bool.false_eq_true, if_false]
    rw [← List.cons_append, ← hds]
    simp [hd, parseDigits_natRepr i.natAbs rest hrest, hval]
    rw [abs_of_neg hneg, neg_neg]
  · rw [intRepr, if_neg (by omega)]
    have hval : ((i.natAbs : Nat) : Int) = i := by omega
    rw [← hval]
    exact parseVal_natRepr n i.natAbs rest hrest

theorem parseVal_strBody (n : Nat) (s : String) (rest : Str) :
    parseVal (n + 1) ('"' :: (escapeChars s.data ++ '"' :: rest)) = some (.str s, rest) := by
  simp only [parseVal]
  rw [skipWs_cons '"' _ (by decide)]
  rw [isPrefixOf_cons_ne _ _ (by decide), isPrefixOf_cons_ne _ _ (by decide),
    isPrefixOf_cons_ne _ _ (by decide)]
  simp [parseStrAux_escape s.data rest]

theorem serVal_shape (v : Json) : ∃ c t, serVal v = c :: t ∧ isJsonWs c = false ∧
    c ≠ ']' ∧ c ≠ rbrace := by
  cases v with
  | null => exact ⟨'n', _, rfl, by decide, by decide, by decide⟩
  | bool b =>
    cases b with
    | false => exact ⟨'f', _, rfl, by decide, by decide, by decide⟩
    | true => exact ⟨'t', _, rfl, by decide, by decide, by decide⟩
  | num i =>
    by_cases h : i < 0
    · exact ⟨'-', natRepr i.natAbs, by show intRepr i = _; rw [intRepr, if_pos h],
        by decide, by decide, by decide⟩
    · obtain ⟨d, ds, hds⟩ := List.exists_cons_of_ne_nil (natRepr_ne_nil i.natAbs)
      have hd : d.isDigit = true :=
        natRepr_digits i.natAbs d (by rw [hds]; exact List.mem_cons_self d ds)
      exact ⟨d, ds, by show intRepr i = _; rw [intRepr, if_neg h, hds],
        isJsonWs_of_isDigit hd, ne_of_isDigit (by decide) hd, ne_of_isDigit (by decide) hd⟩
  | str s => exact ⟨'"', _, rfl, by decide, by decide, by decide⟩
  | arr vs =>
    cases vs with
    | nil => exact ⟨'[', _, rfl, by decide, by decide, by decide⟩
    | cons v vs => exact ⟨'[', _, rfl, by decide, by decide, by decide⟩
  | obj ms =>
    cases ms with
    | nil => exact ⟨lbrace, _, rfl, by decide, by decide, by decide⟩
    | cons m ms => exact ⟨lbrace, _, rfl, by decide, by decide, by decide⟩

theorem serVal_pos (v : Json) : 1 ≤ (serVal v).length := by
  obtain ⟨c, t, hct, _, _, _⟩ := serVal_shape v
  rw [hct]
  simp

theorem serItemsRest_pos (vs : List Json) : 1 ≤ (serItemsRest vs).length := by
  cases vs <;> simp [serItemsRest]

theorem serMembersRest_pos (ms : List (String × Json)) : 1 ≤ (serMembersRest ms).length := by
  cases ms <;> simp [serMembersRest]

theorem restOk_serItemsRest (vs : List Json) (rest : Str) : restOk (serItemsRest vs ++ rest) := by
  cases vs with
  | nil => exact Or.inr (Or.inl rfl)
  | cons v vs => exact Or.inl rfl

theorem restOk_serMembersRest (ms : List (String × Json)) (rest : Str) :
    restOk (serMembersRest ms ++ rest) := by
  cases ms with
  | nil => exact Or.inr (Or.inr rfl)
  | cons m ms => exact Or.inl rfl

@[simp] theorem mk_data (s : String) : String.mk s.data = s := rfl

@[simp] theorem isJsonWs_lbrace : isJsonWs lbrace = false := by decide

@[simp] theorem isJsonWs_lbracket : isJsonWs '[' = false := by decide

@[simp] theorem isJsonWs_rbracket : isJsonWs ']' = false := by decide

@[simp] theorem isJsonWs_comma : isJsonWs ',' = false := by decide

@[simp] theorem isJsonWs_colon : isJsonWs ':' = false := by decide

@[simp] theorem isJsonWs_quote : isJsonWs '"' = false := by decide

@[simp] theorem isJsonWs_rbrace : isJsonWs rbrace = false := by decide

@[simp] theorem beq_n_lbrace : ('n' == lbrace) = false := by decide

@[simp] theorem beq_t_lbrace : ('t' == lbrace) = false := by decide

@[simp] theorem beq_f_lbrace : ('f' == lbrace) = false := by decide

@[simp] theorem lbrace_ne_quote : ¬(lbrace = '"') := by decide

@[simp] theorem lbrace_ne_dash : ¬(lbrace = '-') := by decide

@[simp] theorem lbrace_ne_lbracket : ¬(lbrace = '[') := by decide

@[simp] theorem lbrace_isDigit : lbrace.isDigit = false := by decide

@[simp] theorem quote_ne_rbrace : ¬(('"' : Char) = rbrace) := by decide

@[simp] theorem rbrace_ne_comma : ¬(rbrace = ',') := by decide

@[simp] theorem rbrace_ne_rbracket : ¬(rbrace = ']') := by decide

theorem parse_ser (n : Nat) :
    (∀ v rest, (serVal v).length < n → restOk rest →
      parseVal n (serVal v ++ rest) = some (v, rest)) ∧
    (∀ v vs rest, (serVal v).length + (serItemsRest vs).length < n → restOk rest →
      parseItems n (serVal v ++ (serItemsRest vs ++ rest)) = some (v :: vs, rest)) ∧
    (∀ k v ms rest, (serMember (k, v)).length + (serMembersRest ms).length < n → restOk rest →
      parseMembers n (serMember (k, v) ++ (serMembersRest ms ++ rest)) = some ((k, v) :: ms, rest)) := by
  induction n with
  | zero =>
    exact ⟨fun v rest h _ => absurd h (Nat.not_lt_zero _),
      fun v vs rest h _ => absurd h (Nat.not_lt_zero _),
      fun k v ms rest h _ => absurd h (Nat.not_lt_zero _)⟩
  | succ n ih =>
    obtain ⟨ih1, ih2, ih3⟩ := ih
    refine ⟨?_, ?_, ?_⟩
    · intro v rest hlen hrest
      have hnd := restOk_noDigitHead hrest
      cases v with
      | null => simp [serVal, parseVal, skipWs, isJsonWs, List.isPrefixOf]
      | bool b => cases b <;> simp [serVal, parseVal, skipWs, isJsonWs, List.isPrefixOf]
      | num i =>
        rw [show serVal (.num i) = intRepr i from rfl]
        exact parseVal_intRepr n i rest hnd
      | str s =>
        rw [show serVal (.str s) = '"' :: (escapeChars s.data ++ '"' :: []) from rfl]
        rw [List.cons_append, List.append_assoc, List.cons_append, List.nil_append]
        exact parseVal_strBody n s rest
      | arr vs =>
        cases vs with
        | nil => simp [serVal, parseVal, skipWs, isJsonWs, List.isPrefixOf]
        | cons v vs =>
          have hsub : parseItems n (serVal v ++ (serItemsRest vs ++ rest))
              = some (v :: vs, rest) := by
            refine ih2 v vs rest ?_ hrest
            have h1 : (serVal (.arr (v :: vs))).length
                = (serVal v).length + (serItemsRest vs).length + 1 := by
              rw [show serVal (.arr (v :: vs)) = '[' :: (serVal v ++ serItemsRest vs) from rfl]
              simp
            omega
          obtain ⟨c, t, hct, hws, hbr, hbr2⟩ := serVal_shape v
          rw [show serVal (.arr (v :: vs)) = '[' :: (serVal v ++ serItemsRest vs) from rfl]
          rw [hct] at hsub ⊢
          simp only [List.cons_append, List.append_assoc] at hsub ⊢
          simp [parseVal, skipWs, List.isPrefixOf, hws, hbr, hsub]
      | obj ms =>
        cases ms with
        | nil => simp [serVal, parseVal, skipWs, isJsonWs, List.isPrefixOf, lbrace, rbrace]
        | cons m ms =>
          obtain ⟨k, v⟩ := m
          have hsub : parseMembers n (serMember (k, v) ++ (serMembersRest ms ++ rest))
              = some ((k, v) :: ms, rest) := by
            refine ih3 k v ms rest ?_ hrest
            have h1 : (serVal (.obj ((k, v) :: ms))).length
                = (serMember (k, v)).length + (serMembersRest ms).length + 1 := by
              rw [show serVal (.obj ((k, v) :: ms))
                  = lbrace :: (serMember (k, v) ++ serMembersRest ms) from rfl]
              simp
            omega
          rw [show serVal (.obj ((k, v) :: ms))
              = lbrace :: (serMember (k, v) ++ serMembersRest ms) from rfl]
          rw [show serMember (k, v) = '"' :: escapeChars k.data ++ '"' :: ':' :: serVal v
            from rfl] at hsub ⊢
          simp only [List.cons_append, List.append_assoc] at hsub ⊢
          simp [parseVal, skipWs, List.isPrefixOf, hsub]
    · intro v vs rest hlen hrest
      have hrest2 : restOk (serItemsRest vs ++ rest) := restOk_serItemsRest vs rest
      have hv : parseVal n (serVal v ++ (serItemsRest vs ++ rest))
          = some (v, serItemsRest vs ++ rest) := by
        refine ih1 v _ ?_ hrest2
        have := serItemsRest_pos vs
        omega
      cases vs with
      | nil =>
        rw [show (serItemsRest [] : Str) = [']'] from rfl] at hv ⊢
        simp only [List.singleton_append] at hv ⊢
        simp [parseItems, skipWs, hv]
      | cons w ws =>
        have hsub : parseItems n (serVal w ++ (serItemsRest ws ++ rest))
            = some (w :: ws, rest) := by
          refine ih2 w ws rest ?_ hrest
          have h1 : (serItemsRest (w :: ws)).length
              = (serVal w).length + (serItemsRest ws).length + 1 := by
            rw [show serItemsRest (w :: ws) = ',' :: (serVal w ++ serItemsRest ws) from rfl]
            simp
          have := serVal_pos v
          omega
        rw [show serItemsRest (w :: ws) = ',' :: (serVal w ++ serItemsRest ws) from rfl] at hv ⊢
        simp only [List.cons_append, List.append_assoc] at hv ⊢
        simp [parseItems, skipWs, hv, hsub]
    · intro k v ms rest hlen hrest
      have hrest2 : restOk (serMembersRest ms ++ rest) := restOk_serMembersRest ms rest
      have hmemlen : (serMember (k, v)).length
          = (escapeChars k.data).length + (serVal v).length + 3 := by
        rw [show serMember (k, v) = '"' :: escapeChars k.data ++ '"' :: ':' :: serVal v from rfl]
        simp
        omega
      have hv : parseVal n (serVal v ++ (serMembersRest ms ++ rest))
          = some (v, serMembersRest ms ++ rest) := by
        refine ih1 v _ ?_ hrest2
        have := serMembersRest_pos ms
        omega
      have hesc := parseStrAux_escape k.data (':' :: (serVal v ++ (serMembersRest ms ++ rest)))
      rw [show serMember (k, v) = '"' :: escapeChars k.data ++ '"' :: ':' :: serVal v from rfl]
      simp only [List.cons_append, List.append_assoc]
      cases ms with
      | nil =>
        rw [show (serMembersRest [] : Str) = [rbrace] from rfl] at hv hesc ⊢
        simp only [List.singleton_append] at hv hesc ⊢
        simp [parseMembers, skipWs, hesc, hv]
      | cons m2 ms2 =>
        obtain ⟨k2, v2⟩ := m2
        have hsub : parseMembers n (serMember (k2, v2) ++ (serMembersRest ms2 ++ rest))
            = some ((k2, v2) :: ms2, rest) := by
          refine ih3 k2 v2 ms2 rest ?_ hrest
          have h1 : (serMembersRest ((k2, v2) :: ms2)).length
              = (serMember (k2, v2)).length + (serMembersRest ms2).length + 1 := by
            rw [show serMembersRest ((k2, v2) :: ms2)
                = ',' :: (serMember (k2, v2) ++ serMembersRest ms2) from rfl]
            simp
          have := serVal_pos v
          omega
        rw [show serMembersRest ((k2, v2) :: ms2)
            = ',' :: (serMember (k2, v2) ++ serMembersRest ms2) from rfl] at hv hesc ⊢
        simp only [List.cons_append, List.append_assoc] at hv hesc ⊢
        simp [parseMembers, skipWs, hesc, hv, hsub]

theorem parseJson_serialize (v : Json) : parseJson (serialize v) = some v := by
  have h := (parse_ser ((serVal v).length + 1)).1 v [] (by omega) trivial
  rw [List.append_nil] at h
  rw [parseJson, serialize, h]
  rfl

/-! ### Extraction strategies of `_parse_json_response` (lines 317-350) -/

/-- Split `s` at the first occurrence of `pat`: the part before the
occurrence and the part after it.  This models left-to-right scanning for
a literal pattern as performed by the regex engine. -/
def splitAtSub (pat : Str) : Str → Option (Str × Str)
  | [] => if pat.isPrefixOf ([] : Str) then some ([], []) else none
  | c :: r =>
    if pat.isPrefixOf (c :: r) then some ([], (c :: r).drop pat.length)
    else (splitAtSub pat r).map fun p => (c :: p.1, p.2)

/-- Whether `pat` occurs as a contiguous substring of `s`. -/
def occursIn (pat s : Str) : Bool := (splitAtSub pat s).isSome

/-- Candidates of one fenced-block pattern (`OPENER\s*(.*?)\s*CLOSER` with
`re.DOTALL`, scanned by `re.findall`): find the opener, take everything up
to the next closing fence, continue after it.  The `\s*` of the pattern
only trims whitespace that the caller's `match.strip()` removes anyway, so
the interior is returned untrimmed.  When an opener has no closing fence
the scan ends: no later opener can match either, since any later opener
would itself contain a closing fence for the earlier one. -/
def fenceCandidatesAux (opener : Str) : Nat → Str → List Str
  | 0, _ => []
  | n + 1, s =>
    match splitAtSub opener s with
    | none => []
    | some (_, afterOpen) =>
      match splitAtSub ("```".data) afterOpen with
      | none => []
      | some (between, afterClose) => between :: fenceCandidatesAux opener n afterClose

/-- All interiors matched by one fenced-block pattern, in scan order. -/
def fenceCandidates (opener : Str) (s : Str) : List Str :=
  fenceCandidatesAux opener (s.length + 1) s

/-- The candidate of the greedy raw-object pattern (`\{.*\}` with
`re.DOTALL`): from the first opening brace through the last closing brace,
when a closing brace follows the first opening brace. -/
def braceCandidate (s : Str) : Option Str :=
  let t := s.dropWhile (fun x => x != lbrace)
  let u := t.reverse.dropWhile (fun x => x != rbrace)
  if t.isEmpty then none else if u.isEmpty then none else some u.reverse

/-- The final fallback of `_parse_json_response` (lines 341-343): strip the
response, then delete the leading run of characters other than an opening
brace and the trailing run of characters other than a closing brace. -/
def fallbackCleaned (s : Str) : Str :=
  (((stripChars s).dropWhile (fun x => x != lbrace)).reverse.dropWhile
    (fun x => x != rbrace)).reverse

/-- The ordered candidate list of `_parse_json_response`: json-tagged
fenced blocks, then any fenced blocks, then the greedy brace candidate. -/
def responseCandidates (response : Str) : List Str :=
  fenceCandidates ("```json".data) response ++ fenceCandidates ("```".data) response
    ++ (braceCandidate response).toList

/-- Try `json.loads(match.strip())` on each candidate in order; first
success wins. -/
def tryCandidates : List Str → Option Json
  | [] => none
  | c :: cs =>
    match parseJson (stripChars c) with
    | some v => some v
    | none => tryCandidates cs

/-- The rendered text of the `json.JSONDecodeError` raised by the final
parse attempt.  CPython renders this error as positional text (for
example "Expecting value: line 1 column 1 (char 0)") that never embeds
the input's characters, so the model represents it by this constant. -/
def decodeErrorText : Str := "Expecting value".data

/-- The failure data of `_parse_json_response`'s final branch: the message
of the raised `ValueError` (line 350) and the preview sent to the debug
log (line 349). -/
structure ParseFailure where
  errorMessage : Str
  debugLog : Str

/-- Model of `_parse_json_response` (lines 317-350): direct parse of the
stripped response, then the regex candidates in order, then the
brace-stripping fallback; otherwise a `ValueError` whose message wraps the
decode error, while the bounded 500-character preview of the response goes
to the debug log. -/
def parseJsonResponse (response : Str) : Except ParseFailure Json :=
  match parseJson (stripChars response) with
  | some v => .ok v
  | none =>
    match tryCandidates (responseCandidates response) with
    | some v => .ok v
    | none =>
      match parseJson (fallbackCleaned response) with
      | some v => .ok v
      | none =>
        .error
          { errorMessage := "Could not parse LLM response as JSON: ".data ++ decodeErrorText
            debugLog := "Response was: ".data ++ response.take 500 }

/-- Modelled from the spec's strategy list for `extract_json` with the
final brace-stripping fallback omitted: the direct parse, then the first
candidate of strategies 2-4 that parses.  Used as the reference for the
redundancy claim about the fallback. -/
def extractJsonNoFallback (response : Str) : Option Json :=
  match parseJson (stripChars response) with
  | some v => some v
  | none => tryCandidates (responseCandidates response)

/-! ### Domain model: `Source`, `Chapter`, `BookOutline` -/

/-- `research.models.Source`.  `relevance_score` is a Python float that
this module never computes with; it is modelled by a rational number. -/
structure Source where
  url : String
  title : Option String := none
  content : Option String := none
  snippet : Option String := none
  source_type : String := "web"
  relevance_score : Rat := 0

/-- `Chapter`.  At runtime `key_points` may hold arbitrary JSON values
(the assembler wraps a non-list value into a one-element list without
inspecting elements), so it is modelled as a list of JSON values. -/
structure Chapter where
  title : String
  word_budget : Int
  key_points : List Json := []
  description : String := ""
  order : Int := 0

/-- `BookOutline`.  `generated_at` is the timestamp string captured at
construction; the nondeterministic clock value is passed explicitly. -/
structure BookOutline where
  title : String
  chapters : List Chapter := []
  themes : List Json := []
  tone_description : String := ""
  plot_hypothesis : String := ""
  total_word_count : Int := 0
  target_length : Int := 50000
  genre : String := "non-fiction"
  references : List Source := []
  generated_at : String

/-- First association-list hit for a key (model of Python dict lookup for
the duplicate-free objects the module handles). -/
def assocFind (k : String) : List (String × Json) → Option Json
  | [] => none
  | (k2, v) :: rest => if k2 = k then some v else assocFind k rest

/-- `dict.get(key)` on a parsed JSON value. -/
def Json.getField : Json → String → Option Json
  | .obj kvs, k => assocFind k kvs
  | _, _ => none

/-- `dict.get(key, default)` restricted to string values.  A present field
of a non-string runtime type is outside every claim and also yields the
default. -/
def getStr (d : Json) (k : String) (dflt : String) : String :=
  match d.getField k with
  | some (.str s) => s
  | _ => dflt

/-- `dict.get(key, default)` restricted to integer values. -/
def getNum (d : Json) (k : String) (dflt : Int) : Int :=
  match d.getField k with
  | some (.num m) => m
  | _ => dflt

/-- `dict.get(key, [])` restricted to array values. -/
def getArr (d : Json) (k : String) : List Json :=
  match d.getField k with
  | some (.arr xs) => xs
  | _ => []

/-- `dict.get(key)` for an optional string (a JSON `null` or an absent key
both give `None`). -/
def getOptStr (d : Json) (k : String) : Option String :=
  match d.getField k with
  | some (.str s) => some s
  | _ => none

/-- An optional Python string as stored in a dict destined for JSON. -/
def optStrJson : Option String → Json
  | some s => .str s
  | none => .null

/-- `Chapter.to_dict` (lines 57-65). -/
def Chapter.toDict (c : Chapter) : Json :=
  .obj [("title", .str c.title), ("word_budget", .num c.word_budget),
    ("key_points", .arr c.key_points), ("description", .str c.description),
    ("order", .num c.order)]

/-- `Chapter.from_dict` (lines 67-76). -/
def Chapter.fromDict (d : Json) : Chapter :=
  { title := getStr d "title" ""
    word_budget := getNum d "word_budget" 1000
    key_points := getArr d "key_points"
    description := getStr d "description" ""
    order := getNum d "order" 0 }

/-- `BookOutline.to_dict` (lines 93-109): references keep only `url`,
`title` and `source_type`. -/
def BookOutline.toDict (o : BookOutline) : Json :=
  .obj [("title", .str o.title),
    ("chapters", .arr (o.chapters.map Chapter.toDict)),
    ("themes", .arr o.themes),
    ("tone_description", .str o.tone_description),
    ("plot_hypothesis", .str o.plot_hypothesis),
    ("total_word_count", .num o.total_word_count),
    ("target_length", .num o.target_length),
    ("genre", .str o.genre),
    ("references", .arr (o.references.map fun r =>
      .obj [("url", .str r.url), ("title", optStrJson r.title),
        ("source_type", .str r.source_type)])),
    ("generated_at", .str o.generated_at)]

/-- `BookOutline.from_dict` (lines 111-134).  `now` stands for the
`datetime.now().isoformat()` default used when `generated_at` is absent. -/
def BookOutline.fromDict (d : Json) (now : String) : BookOutline :=
  { title := getStr d "title" ""
    chapters := (getArr d "chapters").map Chapter.fromDict
    themes := getArr d "themes"
    tone_description := getStr d "tone_description" ""
    plot_hypothesis := getStr d "plot_hypothesis" ""
    total_word_count := getNum d "total_word_count" 0
    target_length := getNum d "target_length" 50000
    genre := getStr d "genre" "non-fiction"
    references := (getArr d "references").map fun r =>
      { url := getStr r "url" ""
        title := getOptStr r "title"
        source_type := getStr r "source_type" "web" }
    generated_at := getStr d "generated_at" now }

/-! ### The outline assembler `_validate_and_create_outline` (lines 352-401) -/

/-- One iteration of the assembler's chapter loop (index `i` is 0-based as
produced by `enumerate`; `count` is `len(chapters_data)`).  Python's `//`
is floor division. -/
def buildChapter (target_length : Int) (count : Nat) (i : Nat) (ch : Json) : Chapter :=
  { title := getStr ch "title" (String.mk ("Chapter ".data ++ natRepr (i + 1)))
    word_budget := getNum ch "word_budget" (Int.fdiv target_length count)
    key_points :=
      match ch.getField "key_points" with
      | some (.arr xs) => xs
      | some other => [other]
      | none => []
    description := getStr ch "description" ""
    order := getNum ch "order" ((i : Int) + 1) }

/-- The assembler's chapter list before sorting. -/
def buildChapters (target_length : Int) (chs : List Json) : List Chapter :=
  chs.mapIdx fun i ch => buildChapter target_length chs.length i ch

/-- The sort key used by `chapters.sort(key=lambda c: c.order)`. -/
def chapterLe : Chapter → Chapter → Prop := fun a b => a.order ≤ b.order

instance : DecidableRel chapterLe := fun a b => Int.decLe a.order b.order

instance : IsTotal Chapter chapterLe := ⟨fun a b => Int.le_total a.order b.order⟩

instance : IsTrans Chapter chapterLe := ⟨fun _ _ _ hab hbc => le_trans hab hbc⟩

/-- `_validate_and_create_outline` (lines 352-401).  `now` stands for
`datetime.now().isoformat()`.  Python's stable `list.sort` is modelled by
insertion sort, which is stable for the `≤` comparison on `order`.  A
`chapters` value that is present but not a sequence would raise a type
error in Python during the loop; like the absent and empty cases it never
produces an outline, and the model folds it into the same failure. -/
def validateAndCreateOutline (data : Json) (title : String) (sources : List Source)
    (target_length : Int) (genre : String) (now : String) : Except String BookOutline :=
  let chaptersData := getArr data "chapters"
  if chaptersData.isEmpty then .error "No chapters found in LLM response"
  else
    let chapters := buildChapters target_length chaptersData
    .ok { title := title
          chapters := List.insertionSort chapterLe chapters
          themes := getArr data "themes"
          tone_description := getStr data "tone_description" ""
          plot_hypothesis := getStr data "plot_hypothesis" ""
          total_word_count := (chapters.map Chapter.word_budget).sum
          target_length := target_length
          genre := genre
          references := sources
          generated_at := now }

/-! ### The transport retry loop `_call_llm_with_retry` (lines 268-315) -/

/-- The terminal failures of `_call_llm_with_retry`: the `RuntimeError`
when `httpx` is unavailable, the `ValueError` for a missing API key, and
the final `RuntimeError` wrapping the last recorded attempt error. -/
inductive LlmFailure where
  | httpxMissing : LlmFailure
  | noApiKey : LlmFailure
  | exhausted : Option String → LlmFailure

/-- Observable behaviour of one `_call_llm_with_retry` run: its outcome,
how many attempts were performed, and the `time.sleep(2 ** attempt)`
durations in order. -/
structure RetryTrace where
  result : Except LlmFailure String
  calls : Nat
  sleeps : List Nat

/-- The `for attempt in range(1, max_retries + 1)` loop: `remaining`
attempts are left, the next attempt is number `k`, and `last` is the last
recorded error.  The network call of attempt `k` is abstracted by
`oracle k`. -/
def retryLoop (oracle : Nat → Except String String) (maxRetries : Nat) :
    Nat → Nat → Option String → RetryTrace
  | 0, _, last => { result := .error (.exhausted last), calls := 0, sleeps := [] }
  | remaining + 1, k, _ =>
    match oracle k with
    | .ok s => { result := .ok s, calls := 1, sleeps := [] }
    | .error e =>
      let t := retryLoop oracle maxRetries remaining (k + 1) (some e)
      { result := t.result
        calls := t.calls + 1
        sleeps := (if k < maxRetries then [2 ^ k] else []) ++ t.sleeps }

/-- `_call_llm_with_retry` (lines 268-315).  Python's truthiness test
`not self.api_key` fires for both a missing key and an empty string. -/
def callLlmWithRetry (httpxAvailable : Bool) (apiKey : Option String)
    (maxRetries : Nat) (oracle : Nat → Except String String) : RetryTrace :=
  if !httpxAvailable then { result := .error .httpxMissing, calls := 0, sleeps := [] }
  else
    match apiKey with
    | none => { result := .error .noApiKey, calls := 0, sleeps := [] }
    | some key =>
      if key = "" then { result := .error .noApiKey, calls := 0, sleeps := [] }
      else retryLoop oracle maxRetries maxRetries 1 none

/-! ### The prompt builder `_create_outline_prompt` (lines 201-259) -/

/-- `_estimate_chapter_count` (lines 261-266). -/
def estimateChapterCount (target_length : Int) : Int :=
  min (max 3 (Int.fdiv target_length 4000)) 30

/-- Python `x or y` for an optional string: a missing or empty string is
falsy. -/
def pyOrStr (a : Option String) (b : String) : String :=
  match a with
  | some s => if s = "" then b else s
  | none => b

/-- One block of the sources summary (`i` is the 1-based index from
`enumerate(sources[:10], 1)`): title-or-url, then the first 500 characters
of `content or snippet or ""` with an ellipsis marker. -/
def sourceBlock (i : Nat) (src : Source) : Str :=
  "\nSource ".data ++ natRepr i ++ ": ".data ++ (pyOrStr src.title src.url).data
    ++ "\nContent: ".data ++ (pyOrStr src.content (pyOrStr src.snippet "")).data.take 500
    ++ "...\n".data

/-- The sources summary loop, starting at index `i`. -/
def sourcesTextAux : Nat → List Source → Str
  | _, [] => []
  | i, s :: rest => sourceBlock i s ++ sourcesTextAux (i + 1) rest

/-- The full sources summary over the first 10 sources. -/
def sourcesText (sources : List Source) : Str :=
  sourcesTextAux 1 (sources.take 10)

/-- The `themes_text` expression of `_create_outline_prompt` (line 220). -/
def themesText (themes : List String) : String :=
  if themes.isEmpty then "To be determined from sources" else String.intercalate ", " themes

/-- The rendered prompt text up to and including the "THEMES: " label. -/
def promptHead (title : String) (target_length : Int) (genre : String) : Str :=
  ("You are an expert book outliner and editor. Create a detailed book outline "
    ++ "based on the following research sources.\n\nBOOK TITLE: ").data
    ++ title.data ++ "\nTARGET LENGTH: ".data ++ intRepr target_length
    ++ " words\nGENRE: ".data ++ genre.data ++ "\nTHEMES: ".data

/-- The rendered prompt text after the themes value. -/
def promptTail (target_length : Int) (chapter_count : Int) (srcText : Str) : Str :=
  "\nNUMBER OF CHAPTERS: Approximately ".data ++ intRepr chapter_count
    ++ "\n\nRESEARCH SOURCES:\n".data ++ srcText
    ++ ("\n\nCreate a JSON response with this exact structure:\n\x7b\n"
      ++ "    \"chapters\": [\n        \x7b\n            \"title\": \"Chapter title\",\n"
      ++ "            \"word_budget\": integer_word_count,\n"
      ++ "            \"key_points\": [\"point 1\", \"point 2\", \"point 3\"],\n"
      ++ "            \"description\": \"Detailed description of chapter content\",\n"
      ++ "            \"order\": chapter_number\n        \x7d\n    ],\n"
      ++ "    \"themes\": [\"theme1\", \"theme2\", \"theme3\"],\n"
      ++ "    \"tone_description\": \"Description of the book\x27s tone and style\",\n"
      ++ "    \"plot_hypothesis\": \"For fiction: main plot arc. For non-fiction: "
      ++ "core thesis/argument\"\n\x7d\n\nRequirements:\n"
      ++ "- Total word budget across all chapters should approximately equal ").data
    ++ intRepr target_length
    ++ ("\n- Each chapter must have a clear focus\n"
      ++ "- Key points should be specific and actionable\n"
      ++ "- Order chapters logically (introduction to conclusion)\n"
      ++ "- For non-fiction: ensure logical flow of arguments\n"
      ++ "- For fiction: ensure proper story arc structure\n\n"
      ++ "Respond ONLY with the JSON object, no additional text.").data

/-- `_create_outline_prompt` (lines 201-259): the fully rendered prompt. -/
def createOutlinePrompt (title : String) (sources : List Source) (target_length : Int)
    (genre : String) (themes : List String) : Str :=
  promptHead title target_length genre ++ (themesText themes).data
    ++ promptTail target_length (estimateChapterCount target_length) (sourcesText sources)

/-- Split a rendered string into lines at newline characters. -/
def linesOf : Str → List Str
  | [] => [[]]
  | c :: r =>
    match linesOf r with
    | [] => [[c]]
    | h :: t => if c = '\n' then [] :: h :: t else (c :: h) :: t

/-- The lines of a rendered prompt that carry the THEMES field. -/
def themesFieldLines (p : Str) : List Str :=
  (linesOf p).filter fun l => ("THEMES: ".data).isPrefixOf l

/-! ### Claim theorems -/

theorem orderedInsert_filter_eq (a : Chapter) (l : List Chapter) (k : Int) (ha : a.order = k) :
    (List.orderedInsert chapterLe a l).filter (fun c => decide (c.order = k))
      = a :: l.filter fun c => decide (c.order = k) := by
  induction l with
  | nil => simp [List.orderedInsert, ha]
  | cons b l ih =>
    by_cases h : chapterLe a b
    · simp [List.orderedInsert, h, ha]
    · have hb : ¬(b.order = k) := by
        simp only [chapterLe] at h
        omega
      simp [List.orderedInsert, h, hb, ih]

theorem orderedInsert_filter_ne (a : Chapter) (l : List Chapter) (k : Int)
    (ha : ¬(a.order = k)) :
    (List.orderedInsert chapterLe a l).filter (fun c => decide (c.order = k))
      = l.filter fun c => decide (c.order = k) := by
  induction l with
  | nil => simp [List.orderedInsert, ha]
  | cons b l ih =>
    by_cases h : chapterLe a b <;> simp [List.orderedInsert, h, ha, List.filter_cons, ih]

theorem insertionSort_filter (l : List Chapter) (k : Int) :
    (List.insertionSort chapterLe l).filter (fun c => decide (c.order = k))
      = l.filter fun c => decide (c.order = k) := by
  induction l with
  | nil => rfl
  | cons a l ih =>
    by_cases ha : a.order = k
    · rw [List.insertionSort, orderedInsert_filter_eq a _ k ha, ih]
      simp [ha]
    · rw [List.insertionSort, orderedInsert_filter_ne a _ k ha, ih]
      simp [ha]

/-- Claim C1: on the parsed mapping whose chapters list is
`[{title:"A", order:2}, {title:"B", order:1}]` with no `word_budget` fields
and `target_length = 2000`, `_validate_and_create_outline` returns an
outline whose chapters are ordered `[B, A]`, each with `word_budget = 1000`
(the target length integer-divided by the chapter count), and
`total_word_count = 2000`; and in general chapters are sorted by `order`
ascending with a stable sort, so chapters with equal `order` keep their
relative input position. -/
theorem assembler_example_and_stable_sort :
    (validateAndCreateOutline
        (.obj [("chapters", .arr [.obj [("title", .str "A"), ("order", .num 2)],
          .obj [("title", .str "B"), ("order", .num 1)]])])
        "T" [] 2000 "g" "now"
      = .ok { title := "T"
              chapters := [{ title := "B", word_budget := 1000, key_points := [],
                             description := "", order := 1 },
                           { title := "A", word_budget := 1000, key_points := [],
                             description := "", order := 2 }]
              themes := []
              tone_description := ""
              plot_hypothesis := ""
              total_word_count := 2000
              target_length := 2000
              genre := "g"
              references := []
              generated_at := "now" })
    ∧ (∀ data title sources target_length genre now o,
        validateAndCreateOutline data title sources target_length genre now = .ok o →
          o.chapters.Sorted chapterLe
          ∧ ∀ k : Int, o.chapters.filter (fun c => decide (c.order = k))
              = (buildChapters target_length (getArr data "chapters")).filter
                  fun c => decide (c.order = k)) := by
  constructor
  · rfl
  · intro data title sources target_length genre now o h
    rw [validateAndCreateOutline] at h
    by_cases hne : (getArr data "chapters").isEmpty
    · simp [hne] at h
    · simp only [hne, if_false] at h
      obtain rfl := (Except.ok.inj h).symm
      exact ⟨List.sorted_insertionSort chapterLe _, fun k => insertionSort_filter _ k⟩

theorem assembler_example_and_stable_sort_witness :
    List.Sorted chapterLe
      [({ title := "B", word_budget := 1000, key_points := [], description := "", order := 1 }
          : Chapter),
        { title := "A", word_budget := 1000, key_points := [], description := "", order := 2 }]
    ∧ ([({ title := "B", word_budget := 1000, key_points := [], description := "", order := 1 }
          : Chapter),
        { title := "A", word_budget := 1000, key_points := [], description := "", order := 2
          }].filter fun c => decide (c.order = 1))
      = ((buildChapters 2000 (getArr (.obj [("chapters", .arr [.obj [("title", .str "A"),
            ("order", .num 2)], .obj [("title", .str "B"), ("order", .num 1)]])]) "chapters")).filter
          fun c => decide (c.order = 1)) := by
  have h := (assembler_example_and_stable_sort.2
    (.obj [("chapters", .arr [.obj [("title", .str "A"), ("order", .num 2)],
      .obj [("title", .str "B"), ("order", .num 1)]])])
    "T" [] 2000 "g" "now" _ rfl)
  exact ⟨h.1, h.2 1⟩

theorem outline_chapters_length (data : Json) (title : String) (sources : List Source)
    (target_length : Int) (genre : String) (now : String) (o : BookOutline)
    (h : validateAndCreateOutline data title sources target_length genre now = .ok o) :
    o.chapters.length = (getArr data "chapters").length := by
  rw [validateAndCreateOutline] at h
  by_cases hne : (getArr data "chapters").isEmpty
  · simp [hne] at h
  · simp only [hne, if_false] at h
    obtain rfl := (Except.ok.inj h).symm
    rw [(List.perm_insertionSort chapterLe _).length_eq]
    simp [buildChapters]

/-- Claim C5: for every parsed mapping whose `"chapters"` key is absent or
maps to an empty sequence, `_validate_and_create_outline` fails with a
validation error regardless of what other fields are present, and every
outline it does return has a non-empty chapters list. -/
theorem assembler_requires_nonempty_chapters :
    ∀ data title sources target_length genre now,
      ((Json.getField data "chapters" = none
          ∨ Json.getField data "chapters" = some (.arr [])) →
        validateAndCreateOutline data title sources target_length genre now
          = .error "No chapters found in LLM response")
      ∧ (∀ o, validateAndCreateOutline data title sources target_length genre now = .ok o →
          o.chapters ≠ []) := by
  intro data title sources target_length genre now
  constructor
  · intro h
    have harr : getArr data "chapters" = [] := by
      rcases h with h | h <;> simp [getArr, h]
    rw [validateAndCreateOutline, harr]
    rfl
  · intro o h hnil
    have hlen := outline_chapters_length data title sources target_length genre now o h
    rw [hnil] at hlen
    rw [validateAndCreateOutline] at h
    by_cases hne : (getArr data "chapters").isEmpty
    · simp [hne] at h
    · rw [List.isEmpty_iff] at hne
      exact hne (by simpa using hlen.symm)

theorem assembler_requires_nonempty_chapters_witness :
    (validateAndCreateOutline (.obj [("themes", .arr [])]) "T" [] 2000 "g" "now"
      = .error "No chapters found in LLM response")
    ∧ (({ title := "T",
          chapters := [{ title := "B", word_budget := 2000, key_points := [],
                          description := "", order := 1 }],
          themes := [], tone_description := "", plot_hypothesis := "",
          total_word_count := 2000, target_length := 2000, genre := "g",
          references := [], generated_at := "now" } : BookOutline).chapters ≠ []) := by
  refine ⟨(assembler_requires_nonempty_chapters (.obj [("themes", .arr [])])
    "T" [] 2000 "g" "now").1 (Or.inl rfl), ?_⟩
  exact (assembler_requires_nonempty_chapters
    (.obj [("chapters", .arr [.obj [("title", .str "B"), ("order", .num 1)]])])
    "T" [] 2000 "g" "now").2 _ rfl

theorem retryLoop_calls_le (oracle : Nat → Except String String) (m : Nat) :
    ∀ remaining k last, (retryLoop oracle m remaining k last).calls ≤ remaining := by
  intro remaining
  induction remaining with
  | zero => intro k last; simp [retryLoop]
  | succ r ih =>
    intro k last
    rw [retryLoop]
    cases oracle k with
    | ok s => simp
    | error e =>
      simp only
      have := ih (k + 1) (some e)
      omega

theorem retryLoop_ok (oracle : Nat → Except String String) (m : Nat) :
    ∀ remaining k last s, (retryLoop oracle m remaining k last).result = .ok s →
      ∃ j, k ≤ j ∧ j < k + remaining ∧ oracle j = .ok s := by
  intro remaining
  induction remaining with
  | zero => intro k last s h; simp [retryLoop] at h
  | succ r ih =>
    intro k last s h
    rw [retryLoop] at h
    cases horacle : oracle k with
    | ok s2 =>
      rw [horacle] at h
      simp at h
      exact ⟨k, le_refl k, by omega, by rw [horacle, h]⟩
    | error e =>
      rw [horacle] at h
      simp at h
      obtain ⟨j, hj1, hj2, hj3⟩ := ih (k + 1) (some e) s h
      exact ⟨j, by omega, by omega, hj3⟩

/-- Claim C6: with `max_retries = 3`, `_call_llm_with_retry` attempts the
network call at most 3 times, sleeps `2^attempt` seconds between failed
attempts (2s after the first failure, 4s after the second), performs zero
sleeps if the first attempt succeeds, and after exhausting all attempts
fails with a terminal transport error wrapping the last underlying error,
never returning a partial result. -/
theorem retry_loop_behaviour :
    ∀ (oracle : Nat → Except String String),
      (∀ e1 e2 e3, oracle 1 = .error e1 → oracle 2 = .error e2 → oracle 3 = .error e3 →
        callLlmWithRetry true (some "key") 3 oracle
          = { result := .error (.exhausted (some e3)), calls := 3, sleeps := [2, 4] })
      ∧ (∀ s, oracle 1 = .ok s →
          callLlmWithRetry true (some "key") 3 oracle
            = { result := .ok s, calls := 1, sleeps := [] })
      ∧ (callLlmWithRetry true (some "key") 3 oracle).calls ≤ 3
      ∧ (∀ s, (callLlmWithRetry true (some "key") 3 oracle).result = .ok s →
          ∃ k, 1 ≤ k ∧ k ≤ 3 ∧ oracle k = .ok s) := by
  intro oracle
  refine ⟨?_, ?_, ?_, ?_⟩
  · intro e1 e2 e3 h1 h2 h3
    simp [callLlmWithRetry, retryLoop, h1, h2, h3]
  · intro s h1
    simp [callLlmWithRetry, retryLoop, h1]
  · rw [callLlmWithRetry]
    simp only [Bool.not_true, if_false]
    exact le_trans (retryLoop_calls_le oracle 3 3 1 none) (by omega)
  · intro s h
    rw [callLlmWithRetry] at h
    simp only [Bool.not_true, if_false] at h
    obtain ⟨j, hj1, hj2, hj3⟩ := retryLoop_ok oracle 3 3 1 none s h
    exact ⟨j, hj1, by omega, hj3⟩

theorem retry_loop_behaviour_witness :
    (callLlmWithRetry true (some "key") 3 (fun k => .error (Nat.repr k))
      = { result := .error (.exhausted (some "3")), calls := 3, sleeps := [2, 4] })
    ∧ (callLlmWithRetry true (some "key") 3 (fun _ => .ok "y")
      = { result := .ok "y", calls := 1, sleeps := [] }) :=
  ⟨(retry_loop_behaviour (fun k => .error (Nat.repr k))).1 "1" "2" "3" rfl rfl rfl,
    (retry_loop_behaviour (fun _ => .ok "y")).2.1 "y" rfl⟩

/-- Claim C7: if no API key is configured (whether `None` or the falsy
empty string), `_call_llm_with_retry` fails immediately with a
configuration error: no network attempt is made, no retry occurs, and no
backoff sleep happens. -/
theorem missing_api_key_fails_fast :
    ∀ (oracle : Nat → Except String String) (maxRetries : Nat),
      callLlmWithRetry true none maxRetries oracle
        = { result := .error .noApiKey, calls := 0, sleeps := [] }
      ∧ callLlmWithRetry true (some "") maxRetries oracle
        = { result := .error .noApiKey, calls := 0, sleeps := [] } := by
  intro oracle maxRetries
  exact ⟨rfl, rfl⟩

/-- Claim C9, amended: in `_create_outline_prompt`, an empty themes list
renders the THEMES field as the sentinel phrase
"To be determined from sources" (not "themes to be determined" as
claimed), and a non-empty themes list renders it as the comma-joined
themes. -/
theorem themes_field_rendering :
    ∀ title sources target_length genre themes,
      (themes = [] →
        createOutlinePrompt title sources target_length genre themes
          = promptHead title target_length genre ++ "To be determined from sources".data
            ++ promptTail target_length (estimateChapterCount target_length)
                (sourcesText sources))
      ∧ (themes ≠ [] →
        createOutlinePrompt title sources target_length genre themes
          = promptHead title target_length genre
            ++ (String.intercalate ", " themes).data
            ++ promptTail target_length (estimateChapterCount target_length)
                (sourcesText sources)) := by
  intro title sources target_length genre themes
  constructor
  · intro h
    subst h
    rfl
  · intro h
    rw [createOutlinePrompt, themesText, if_neg (by simpa using h)]

set_option maxRecDepth 4096 in
/-- Claim C9, counterexample to the claimed sentinel: with an empty themes
list the single THEMES line of the rendered prompt is
"THEMES: To be determined from sources", which differs from the claimed
phrase "themes to be determined". -/
theorem themes_sentinel_counterexample :
    themesFieldLines (createOutlinePrompt "T" [] 2000 "non-fiction" [])
        = ["THEMES: To be determined from sources".data]
      ∧ ("THEMES: To be determined from sources".data
        ≠ "THEMES: themes to be determined".data) := by
  exact ⟨by decide, by decide⟩

theorem themes_field_rendering_witness :
    (createOutlinePrompt "T" [] 2000 "non-fiction" []
      = promptHead "T" 2000 "non-fiction" ++ "To be determined from sources".data
        ++ promptTail 2000 (estimateChapterCount 2000) (sourcesText []))
    ∧ (createOutlinePrompt "T" [] 2000 "non-fiction" ["a", "b"]
      = promptHead "T" 2000 "non-fiction" ++ (String.intercalate ", " ["a", "b"]).data
        ++ promptTail 2000 (estimateChapterCount 2000) (sourcesText [])) :=
  ⟨(themes_field_rendering "T" [] 2000 "non-fiction" []).1 rfl,
    (themes_field_rendering "T" [] 2000 "non-fiction" ["a", "b"]).2 (by decide)⟩

/-- Claim C2: for every input string whose trimmed content is well-formed
JSON (no prose or fence wrapping), `_parse_json_response` returns the
parsed mapping, and it is idempotent: re-parsing the serialization of its
own returned value yields an equal mapping. -/
theorem extract_json_direct_and_idempotent :
    ∀ (s : Str) (v : Json), parseJson (stripChars s) = some v →
      parseJsonResponse s = .ok v ∧ parseJson (serialize v) = some v := by
  intro s v h
  constructor
  · rw [parseJsonResponse, h]
  · exact parseJson_serialize v

theorem extract_json_direct_and_idempotent_witness :
    parseJson (stripChars (" \x7b\"a\": [1, true, null]\x7d ".data))
        = some (.obj [("a", .arr [.num 1, .bool true, .null])])
    ∧ parseJsonResponse (" \x7b\"a\": [1, true, null]\x7d ".data)
        = .ok (.obj [("a", .arr [.num 1, .bool true, .null])])
    ∧ parseJson (serialize (.obj [("a", .arr [.num 1, .bool true, .null])]))
        = some (.obj [("a", .arr [.num 1, .bool true, .null])]) := by
  have h : parseJson (stripChars (" \x7b\"a\": [1, true, null]\x7d ".data))
      = some (.obj [("a", .arr [.num 1, .bool true, .null])]) := by rfl
  have h2 := extract_json_direct_and_idempotent (" \x7b\"a\": [1, true, null]\x7d ".data)
    (.obj [("a", .arr [.num 1, .bool true, .null])]) h
  exact ⟨h, h2.1, h2.2⟩

theorem isPrefixOf_refl (l : Str) : l.isPrefixOf l = true := by
  have h := isPrefixOf_self_append l []
  rwa [List.append_nil] at h

theorem occursIn_append_self (pat : Str) (hne : pat ≠ []) :
    ∀ a : Str, occursIn pat (a ++ pat) = true := by
  intro a
  induction a with
  | nil =>
    rw [List.nil_append, occursIn]
    cases hp : pat with
    | nil => exact absurd hp hne
    | cons c r =>
      rw [splitAtSub, if_pos (hp ▸ isPrefixOf_refl (c :: r))]
      rfl
  | cons c a ih =>
    rw [List.cons_append, occursIn, splitAtSub]
    by_cases hp : pat.isPrefixOf (c :: (a ++ pat))
    · simp [hp]
    · simp only [hp, if_false]
      rw [occursIn] at ih
      simp only [Option.isSome_iff_exists] at ih ⊢
      obtain ⟨p, hps⟩ := ih
      rw [hps]
      exact ⟨_, rfl⟩

theorem occursIn_nil_pat (x : Str) : occursIn [] x = true := by
  cases x <;> rfl

/-- Claim C4, amended: when every recovery strategy fails to yield valid
JSON, `_parse_json_response` raises a parse error, and the bounded preview
(the first 500 characters) of the original input appears in the debug log
line "Response was: ..." rather than in the error message itself, which
carries only the decode-error text. -/
theorem parse_failure_diagnostics :
    ∀ s : Str,
      parseJson (stripChars s) = none →
      tryCandidates (responseCandidates s) = none →
      parseJson (fallbackCleaned s) = none →
      parseJsonResponse s = .error
          { errorMessage := "Could not parse LLM response as JSON: ".data ++ decodeErrorText
            debugLog := "Response was: ".data ++ s.take 500 }
        ∧ occursIn (s.take 500) ("Response was: ".data ++ s.take 500) = true := by
  intro s h1 h2 h3
  constructor
  · rw [parseJsonResponse, h1, h2, h3]
  · by_cases h : s.take 500 = []
    · rw [h]
      exact occursIn_nil_pat _
    · exact occursIn_append_self (s.take 500) h _

/-- Claim C4, counterexample to the claimed message contents: on the
unparsable input "XYZZY hello" the raised error's message is the fixed
decode-error text and does not contain the input preview; the preview
appears only in the debug log line. -/
theorem parse_failure_message_counterexample :
    parseJsonResponse ("XYZZY hello".data)
        = .error { errorMessage := "Could not parse LLM response as JSON: ".data
                      ++ decodeErrorText
                   debugLog := "Response was: XYZZY hello".data }
      ∧ occursIn (("XYZZY hello".data).take 500)
          ("Could not parse LLM response as JSON: ".data ++ decodeErrorText) = false
      ∧ occursIn (("XYZZY hello".data).take 500) ("Response was: XYZZY hello".data) = true :=
  ⟨rfl, by decide, by decide⟩

theorem parse_failure_diagnostics_witness :
    parseJsonResponse ("no json here".data) = .error
        { errorMessage := "Could not parse LLM response as JSON: ".data ++ decodeErrorText
          debugLog := "Response was: ".data ++ ("no json here".data).take 500 }
      ∧ occursIn (("no json here".data).take 500)
          ("Response was: ".data ++ ("no json here".data).take 500) = true :=
  parse_failure_diagnostics ("no json here".data) rfl rfl rfl

theorem chapter_roundtrip (c : Chapter) : Chapter.fromDict (Chapter.toDict c) = c := by
  cases c
  simp [Chapter.toDict, Chapter.fromDict, getStr, getNum, getArr, Json.getField, assocFind]

theorem source_roundtrip (r : Source) (ht : r.content = none) (hs : r.snippet = none)
    (hrel : r.relevance_score = 0) :
    ({ url := getStr (.obj [("url", .str r.url), ("title", optStrJson r.title),
          ("source_type", .str r.source_type)]) "url" "",
       title := getOptStr (.obj [("url", .str r.url), ("title", optStrJson r.title),
          ("source_type", .str r.source_type)]) "title",
       source_type := getStr (.obj [("url", .str r.url), ("title", optStrJson r.title),
          ("source_type", .str r.source_type)]) "source_type" "web" } : Source) = r := by
  cases r
  cases ht
  cases hs
  cases hrel
  simp only [getStr, getOptStr, Json.getField, assocFind]
  rename_i title _
  cases title <;> simp [optStrJson]

theorem chapter_roundtrip_comp : Chapter.fromDict ∘ Chapter.toDict = id :=
  funext chapter_roundtrip

/-- Claim C8: for every `Chapter` c, `Chapter.from_dict(c.to_dict())`
equals c; and for every `BookOutline` o, `BookOutline.from_dict(o.to_dict())`
equals o except that each `Source` in references retains only `url`,
`title` and `source_type`, with `content`, `snippet` and `relevance_score`
reset to defaults (they are not recoverable from the serialized form). -/
theorem serialization_roundtrip :
    (∀ c : Chapter, Chapter.fromDict (Chapter.toDict c) = c)
    ∧ (∀ (o : BookOutline) (now : String),
        BookOutline.fromDict (BookOutline.toDict o) now
          = { o with references := o.references.map fun r =>
                { url := r.url, title := r.title, source_type := r.source_type } }) := by
  refine ⟨chapter_roundtrip, ?_⟩
  intro o now
  simp [BookOutline.toDict, BookOutline.fromDict, getStr, getNum, getArr, getOptStr,
    Json.getField, assocFind, List.map_map, chapter_roundtrip]
  constructor
  · rw [show Chapter.fromDict ∘ Chapter.toDict = id from funext chapter_roundtrip, List.map_id]
  · intro a _
    cases ht : a.title <;> simp [optStrJson, ht]

theorem dropWhile_head_false (p : Char → Bool) {l : Str} {c : Char} {r : Str}
    (h : l.dropWhile p = c :: r) : p c = false := by
  induction l with
  | nil => simp at h
  | cons a l ih =>
    rw [List.dropWhile_cons] at h
    by_cases ha : p a = true
    · rw [if_pos ha] at h
      exact ih h
    · rw [if_neg ha] at h
      obtain ⟨rfl, _⟩ := List.cons.inj h
      simpa using ha

theorem dropWhile_of_sub {p q : Char → Bool} (hsub : ∀ c, q c = true → p c = true) :
    ∀ l : Str, (l.dropWhile q).dropWhile p = l.dropWhile p := by
  intro l
  induction l with
  | nil => rfl
  | cons a l ih =>
    by_cases ha : q a = true
    · rw [List.dropWhile_cons, if_pos ha, ih, List.dropWhile_cons, if_pos (hsub a ha)]
    · rw [List.dropWhile_cons, if_neg ha]

theorem dropWhile_append_last {p : Char → Bool} {c : Char} (hc : p c = false) (x : Str) :
    (x ++ [c]).dropWhile p = x.dropWhile p ++ [c] := by
  induction x with
  | nil => simp [List.dropWhile_cons, hc]
  | cons a x ih =>
    by_cases ha : p a = true
    · rw [List.cons_append, List.dropWhile_cons, if_pos ha, ih, List.dropWhile_cons, if_pos ha]
    · rw [List.cons_append, List.dropWhile_cons, if_neg ha, List.dropWhile_cons, if_neg ha,
        List.cons_append]

theorem pyWs_notLb {c : Char} (h : isPyWs c = true) : (c != lbrace) = true := by
  have : c ≠ lbrace := by
    intro he
    rw [he, show isPyWs lbrace = false from by decide] at h
    cases h
  simpa using this

theorem pyWs_notRb {c : Char} (h : isPyWs c = true) : (c != rbrace) = true := by
  have : c ≠ rbrace := by
    intro he
    rw [he, show isPyWs rbrace = false from by decide] at h
    cases h
  simpa using this

/-- The trailing-whitespace strip performed by `str.strip` after the
leading strip. -/
def stripEnd (x : Str) : Str := (x.reverse.dropWhile isPyWs).reverse

theorem stripChars_eq_stripEnd (s : Str) : stripChars s = stripEnd (s.dropWhile isPyWs) := rfl

theorem stripEnd_cons_nonws {c : Char} (hc : isPyWs c = false) (t : Str) :
    stripEnd (c :: t) = c :: stripEnd t := by
  rw [stripEnd, List.reverse_cons, dropWhile_append_last hc, List.reverse_append]
  simp [stripEnd]

theorem stripEnd_append_cons {c : Char} (hc : isPyWs c = false) (a t : Str) :
    stripEnd (a ++ c :: t) = a ++ stripEnd (c :: t) := by
  rw [stripEnd, List.reverse_append, List.reverse_cons, List.dropWhile_append,
    dropWhile_append_last hc]
  rw [if_neg (by simp)]
  rw [List.reverse_append, List.reverse_reverse, ← dropWhile_append_last hc,
    ← List.reverse_cons, ← stripEnd]

theorem dropLb_stripEnd (x : Str) :
    (stripEnd x).dropWhile (fun c => c != lbrace)
      = stripEnd (x.dropWhile fun c => c != lbrace) := by
  cases hc : x.dropWhile (fun c => c != lbrace) with
  | nil =>
    have hall : ∀ a ∈ x, (a != lbrace) = true := List.dropWhile_eq_nil_iff.mp hc
    have hall2 : ∀ a ∈ stripEnd x, (a != lbrace) = true := by
      intro a ha
      refine hall a ?_
      rw [stripEnd, List.mem_reverse] at ha
      exact List.mem_reverse.mp ((List.dropWhile_sublist isPyWs).mem ha)
    rw [List.dropWhile_eq_nil_iff.mpr hall2, stripEnd]
    rfl
  | cons d suf =>
    have hdfalse := dropWhile_head_false (fun c => c != lbrace) hc
    have hdl : d = lbrace := by simpa using hdfalse
    subst hdl
    have hx : x.takeWhile (fun c => c != lbrace) ++ lbrace :: suf = x := by
      rw [← hc]
      exact List.takeWhile_append_dropWhile _ x
    have hpre : ∀ a ∈ x.takeWhile (fun c => c != lbrace), (a != lbrace) = true :=
      fun a ha => List.mem_takeWhile_imp (p := fun c => c != lbrace) ha
    rw [← hx, stripEnd_append_cons (by decide), List.dropWhile_append]
    rw [if_pos (by rw [List.dropWhile_eq_nil_iff.mpr hpre]; rfl)]
    rw [stripEnd_cons_nonws (by decide), List.dropWhile_cons, if_neg (by simp)]

theorem fallbackCleaned_eq_span (s : Str) :
    fallbackCleaned s
      = ((s.dropWhile (fun x => x != lbrace)).reverse.dropWhile
          (fun x => x != rbrace)).reverse := by
  rw [fallbackCleaned, stripChars_eq_stripEnd, dropLb_stripEnd,
    dropWhile_of_sub (fun c h => pyWs_notLb h) s, stripEnd, List.reverse_reverse,
    dropWhile_of_sub (fun c h => pyWs_notRb h)]

theorem brace_fallback_agree (s : Str) :
    (∀ c, braceCandidate s = some c → fallbackCleaned s = c)
    ∧ (braceCandidate s = none → fallbackCleaned s = []) := by
  rw [fallbackCleaned_eq_span s]
  rw [braceCandidate]
  constructor
  · intro c hb
    by_cases h1 : (s.dropWhile (fun x => x != lbrace)).isEmpty
    · rw [if_pos h1] at hb
      cases hb
    · rw [if_neg h1] at hb
      by_cases h2 : ((s.dropWhile (fun x => x != lbrace)).reverse.dropWhile
          (fun x => x != rbrace)).isEmpty
      · rw [if_pos h2] at hb
        cases hb
      · rw [if_neg h2] at hb
        exact Option.some.inj hb
  · intro hb
    by_cases h1 : (s.dropWhile (fun x => x != lbrace)).isEmpty
    · rw [List.isEmpty_iff.mp h1]
      rfl
    · rw [if_neg h1] at hb
      by_cases h2 : ((s.dropWhile (fun x => x != lbrace)).reverse.dropWhile
          (fun x => x != rbrace)).isEmpty
      · rw [List.isEmpty_iff.mp h2]
        rfl
      · rw [if_neg h2] at hb
        cases hb

theorem tryCandidates_none_mem {L : List Str} (h : tryCandidates L = none) :
    ∀ c ∈ L, parseJson (stripChars c) = none := by
  induction L with
  | nil => intro c hc; cases hc
  | cons a L ih =>
    intro c hc
    rw [tryCandidates] at h
    cases hp : parseJson (stripChars a) with
    | some v => rw [hp] at h; cases h
    | none =>
      rw [hp] at h
      rcases List.mem_cons.mp hc with rfl | hc
      · exact hp
      · exact ih h c hc

theorem braceCandidate_stripChars {s c : Str} (h : braceCandidate s = some c) :
    stripChars c = c := by
  rw [braceCandidate] at h
  by_cases h1 : (s.dropWhile (fun x => x != lbrace)).isEmpty
  · rw [if_pos h1] at h
    cases h
  · rw [if_neg h1] at h
    by_cases h2 : ((s.dropWhile (fun x => x != lbrace)).reverse.dropWhile
        (fun x => x != rbrace)).isEmpty
    · rw [if_pos h2] at h
      cases h
    · rw [if_neg h2] at h
      obtain rfl := (Option.some.inj h).symm
      have ht0 : s.dropWhile (fun x => x != lbrace) ≠ [] := by
        intro hnil
        rw [hnil] at h1
        exact h1 rfl
      obtain ⟨d, r, ht⟩ := List.exists_cons_of_ne_nil ht0
      have hd : d = lbrace := by
        simpa using dropWhile_head_false (fun x => x != lbrace) ht
      subst hd
      have hu0 : (s.dropWhile (fun x => x != lbrace)).reverse.dropWhile
          (fun x => x != rbrace) ≠ [] := by
        intro hnil
        rw [hnil] at h2
        exact h2 rfl
      obtain ⟨e, q, hu⟩ := List.exists_cons_of_ne_nil hu0
      have he : e = rbrace := by
        simpa using dropWhile_head_false (fun x => x != rbrace) hu
      subst he
      have hhead : ∃ w, ((s.dropWhile (fun x => x != lbrace)).reverse.dropWhile
          (fun x => x != rbrace)).reverse = lbrace :: w := by
        by_cases h3 : (r.reverse.dropWhile (fun x => x != rbrace)).isEmpty
        · exfalso
          apply h2
          rw [ht, List.reverse_cons, List.dropWhile_append, if_pos h3]
          rfl
        · refine ⟨(r.reverse.dropWhile (fun x => x != rbrace)).reverse, ?_⟩
          rw [ht, List.reverse_cons, List.dropWhile_append, if_neg h3,
            List.reverse_append]
          rfl
      obtain ⟨w, hw⟩ := hhead
      have hF1 : (((s.dropWhile (fun x => x != lbrace)).reverse.dropWhile
          (fun x => x != rbrace)).reverse).dropWhile isPyWs
          = ((s.dropWhile (fun x => x != lbrace)).reverse.dropWhile
              (fun x => x != rbrace)).reverse := by
        rw [hw, List.dropWhile_cons,
          if_neg (by rw [show isPyWs lbrace = false from by decide]; simp)]
      rw [stripChars, hF1, List.reverse_reverse, hu, List.dropWhile_cons,
        if_neg (by rw [show isPyWs rbrace = false from by decide]; simp), ← hu]

/-- Claim C10: the final brace-stripping fallback of
`_parse_json_response` is redundant: its candidate (the substring from the
first opening brace through the last closing brace of the stripped input)
is identical to the greedy-brace strategy's candidate whenever one exists
and is unparsable otherwise, so the function succeeds if and only if one
of the earlier strategies (direct parse, json-tagged fence, any fence,
greedy brace) succeeds, and with the same value. -/
theorem fallback_redundant :
    ∀ s : Str,
      (∀ c, braceCandidate s = some c → fallbackCleaned s = c)
      ∧ (braceCandidate s = none → parseJson (fallbackCleaned s) = none)
      ∧ (∀ v, parseJsonResponse s = .ok v ↔ extractJsonNoFallback s = some v) := by
  intro s
  obtain ⟨hag1, hag2⟩ := brace_fallback_agree s
  refine ⟨hag1, ?_, ?_⟩
  · intro h
    rw [hag2 h]
    rfl
  · intro v
    rw [parseJsonResponse, extractJsonNoFallback]
    cases h1 : parseJson (stripChars s) with
    | some w => simp
    | none =>
      cases h2 : tryCandidates (responseCandidates s) with
      | some w => simp
      | none =>
        have hfb : parseJson (fallbackCleaned s) = none := by
          cases hb : braceCandidate s with
          | none =>
            rw [hag2 hb]
            rfl
          | some c =>
            have hmem : c ∈ responseCandidates s := by
              rw [responseCandidates]
              refine List.mem_append_right _ ?_
              rw [hb]
              exact List.mem_singleton.mpr rfl
            have hc := tryCandidates_none_mem h2 c hmem
            rw [hag1 c hb, ← braceCandidate_stripChars hb]
            exact hc
        rw [hfb]
        simp

theorem fallback_redundant_witness :
    fallbackCleaned ("x \x7b\"a\": 1\x7d y".data) = "\x7b\"a\": 1\x7d".data
    ∧ (parseJsonResponse ("x \x7b\"a\": 1\x7d y".data) = .ok (.obj [("a", .num 1)])
        ↔ extractJsonNoFallback ("x \x7b\"a\": 1\x7d y".data) = some (.obj [("a", .num 1)])) :=
  ⟨(fallback_redundant ("x \x7b\"a\": 1\x7d y".data)).1 _ rfl,
    ((fallback_redundant ("x \x7b\"a\": 1\x7d y".data)).2.2 _)⟩

theorem splitAtSub_self_append {pat : Str} (hne : pat ≠ []) (rest : Str) :
    splitAtSub pat (pat ++ rest) = some ([], rest) := by
  obtain ⟨c, r, rfl⟩ := List.exists_cons_of_ne_nil hne
  rw [List.cons_append, splitAtSub,
    if_pos (by rw [← List.cons_append]; exact isPrefixOf_self_append _ _)]
  rw [← List.cons_append, List.drop_left]

theorem splitAtSub_append (pat ys : Str) :
    ∀ xs : Str, (∀ i, i < xs.length → pat.isPrefixOf (xs.drop i ++ ys) = false) →
      splitAtSub pat (xs ++ ys)
        = (splitAtSub pat ys).map fun p => (xs ++ p.1, p.2) := by
  intro xs
  induction xs with
  | nil =>
    intro _
    rw [List.nil_append]
    cases splitAtSub pat ys with
    | none => rfl
    | some p => simp
  | cons c xs ih =>
    intro h
    rw [List.cons_append, splitAtSub]
    rw [if_neg (by
      have h0 := h 0 (by simp)
      rw [List.drop_zero, List.cons_append] at h0
      simp [h0])]
    rw [ih fun i hi => by
      have hi1 := h (i + 1) (by simpa using hi)
      rwa [List.drop_succ_cons] at hi1]
    cases splitAtSub pat ys with
    | none => rfl
    | some p => simp

theorem splitAtSub_none_noPre {pat : Str} (hne : pat ≠ []) :
    ∀ {s : Str}, splitAtSub pat s = none → ∀ j, pat.isPrefixOf (s.drop j) = false := by
  intro s
  induction s with
  | nil =>
    intro _ j
    rw [List.drop_nil]
    obtain ⟨c, r, rfl⟩ := List.exists_cons_of_ne_nil hne
    rfl
  | cons a s ih =>
    intro h j
    rw [splitAtSub] at h
    by_cases hp : pat.isPrefixOf (a :: s) = true
    · rw [if_pos hp] at h
      cases h
    · rw [if_neg hp] at h
      have h2 : splitAtSub pat s = none := by
        cases hs : splitAtSub pat s with
        | none => rfl
        | some p => rw [hs] at h; cases h
      cases j with
      | zero =>
        rw [List.drop_zero]
        exact Bool.eq_false_iff.mpr hp
      | succ j =>
        rw [List.drop_succ_cons]
        exact ih h2 j

theorem isPrefixOf_append_longer {pat x : Str} (y : Str) (h : pat.length ≤ x.length) :
    pat.isPrefixOf (x ++ y) = pat.isPrefixOf x := by
  induction pat generalizing x with
  | nil => simp [List.isPrefixOf]
  | cons p pr ih =>
    cases x with
    | nil => simp at h
    | cons a xr =>
      rw [List.cons_append]
      simp only [List.isPrefixOf]
      rw [ih (by simpa using h)]

theorem fence_noPre {s : Str} (hnf : splitAtSub ("```".data) s = none) :
    ∀ i, i < ('\n' :: (s ++ ['\n'])).length →
      ("```".data).isPrefixOf (('\n' :: (s ++ ['\n'])).drop i ++ "```".data) = false := by
  intro i hi
  cases i with
  | zero =>
    rw [List.drop_zero, List.cons_append]
    exact isPrefixOf_cons_ne _ _ (by decide)
  | succ j =>
    rw [List.drop_succ_cons]
    have hj : j ≤ s.length := by
      simp only [List.length_cons, List.length_append, List.length_singleton,
        List.length_nil] at hi
      omega
    rw [List.drop_append_of_le_length hj, List.append_assoc, List.singleton_append]
    have hsj := splitAtSub_none_noPre (by decide) hnf j
    cases hd : s.drop j with
    | nil => simp [List.isPrefixOf]
    | cons a d1 =>
      cases hd1 : d1 with
      | nil => simp [List.isPrefixOf]
      | cons b d2 =>
        cases hd2 : d2 with
        | nil => simp [List.isPrefixOf]
        | cons c3 d3 =>
          rw [isPrefixOf_append_longer _ (by simp)]
          rw [hd, hd1, hd2] at hsj
          exact hsj

theorem fenceCandidatesAux_empty {opener : Str} (hne : opener ≠ []) (m : Nat) :
    fenceCandidatesAux opener m [] = [] := by
  cases m with
  | zero => rfl
  | succ m =>
    rw [fenceCandidatesAux]
    obtain ⟨c, r, rfl⟩ := List.exists_cons_of_ne_nil hne
    rfl

theorem stripChars_cons_nonws {c : Char} (hc : isPyWs c = false) (l : Str) :
    stripChars (c :: l) = c :: stripEnd l := by
  rw [stripChars_eq_stripEnd, List.dropWhile_cons, if_neg (by rw [hc]; simp)]
  exact stripEnd_cons_nonws hc l

theorem stripEnd_append_ws {c : Char} (hc : isPyWs c = true) (x : Str) :
    stripEnd (x ++ [c]) = stripEnd x := by
  rw [stripEnd, List.reverse_append, List.reverse_singleton, List.singleton_append,
    List.dropWhile_cons, if_pos (by rw [hc]), stripEnd]

theorem stripChars_pad (s : Str) :
    stripChars ('\n' :: (s ++ ['\n'])) = stripChars s := by
  rw [stripChars_eq_stripEnd, List.dropWhile_cons, if_pos (by decide)]
  by_cases he : (s.dropWhile isPyWs).isEmpty
  · rw [List.dropWhile_append, if_pos he]
    rw [show List.dropWhile isPyWs ['\n'] = [] from by decide]
    rw [stripChars_eq_stripEnd, List.isEmpty_iff.mp he]
  · rw [List.dropWhile_append, if_neg he, stripEnd_append_ws (by decide),
      stripChars_eq_stripEnd]

theorem parseVal_backquote (n : Nat) (t : Str) :
    parseVal (n + 1) (backquote :: t) = none := by
  simp only [parseVal]
  rw [skipWs_cons backquote t (by decide)]
  rw [isPrefixOf_cons_ne _ _ (by decide), isPrefixOf_cons_ne _ _ (by decide),
    isPrefixOf_cons_ne _ _ (by decide)]
  simp only [Bool.false_eq_true, if_false]
  rw [if_neg (by decide : ¬backquote = '"'), if_neg (by decide : ¬backquote = '-'),
    if_neg (by decide : ¬backquote = '['), if_neg (by decide : ¬backquote = lbrace),
    if_neg (by decide : ¬backquote.isDigit = true)]

theorem parseJson_backquote (t : Str) : parseJson (backquote :: t) = none := by
  rw [parseJson, List.length_cons, parseVal_backquote]

/-- Claim C3, amended: for every well-formed JSON object whose text
contains no triple-backquote fence sequence, wrapping it in a fenced block
tagged json makes `_parse_json_response` return the same mapping as
parsing the fenced interior directly. The fence-free restriction is
necessary: fence sequences inside the object's strings create earlier
spurious candidates. -/
theorem fenced_json_extraction :
    ∀ (s : Str) (v : Json),
      splitAtSub ("```".data) s = none →
      parseJson (stripChars s) = some v →
      parseJsonResponse ("```json\n".data ++ (s ++ "\n```".data)) = .ok v := by
  intro s v hnf hv
  have hl : "```json\n".data ++ (s ++ "\n```".data)
      = backquote :: ("``json\n".data ++ (s ++ "\n```".data)) := rfl
  have hstage1 : parseJson (stripChars ("```json\n".data ++ (s ++ "\n```".data))) = none := by
    rw [hl, stripChars_cons_nonws (by decide)]
    exact parseJson_backquote _
  have hopen : splitAtSub ("```json".data) ("```json\n".data ++ (s ++ "\n```".data))
      = some ([], '\n' :: (s ++ "\n```".data)) := by
    rw [show "```json\n".data ++ (s ++ "\n```".data)
        = "```json".data ++ ('\n' :: (s ++ "\n```".data)) from rfl]
    exact splitAtSub_self_append (by decide) _
  have hsplit : '\n' :: (s ++ "\n```".data) = ('\n' :: (s ++ ['\n'])) ++ "```".data := by
    rw [List.cons_append, List.append_assoc]
    rfl
  have hclose : splitAtSub ("```".data) ('\n' :: (s ++ "\n```".data))
      = some ('\n' :: (s ++ ['\n']), []) := by
    rw [hsplit, splitAtSub_append _ _ _ (fence_noPre hnf)]
    have hself := @splitAtSub_self_append ("```".data) (by decide) []
    rw [List.append_nil] at hself
    rw [hself]
    simp
  have hcand : responseCandidates ("```json\n".data ++ (s ++ "\n```".data))
      = ('\n' :: (s ++ ['\n']))
        :: (fenceCandidates ("```".data) ("```json\n".data ++ (s ++ "\n```".data))
          ++ (braceCandidate ("```json\n".data ++ (s ++ "\n```".data))).toList) := by
    rw [responseCandidates, fenceCandidates, fenceCandidatesAux]
    simp only [hopen]
    simp only [hclose]
    rw [fenceCandidatesAux_empty (by decide)]
    simp
  have htry : tryCandidates (responseCandidates ("```json\n".data ++ (s ++ "\n```".data)))
      = some v := by
    rw [hcand, tryCandidates, stripChars_pad, hv]
  rw [parseJsonResponse, hstage1, htry]

theorem fenced_json_extraction_witness :
    splitAtSub ("```".data) ("\x7b\"a\": 1\x7d".data) = none
    ∧ parseJson (stripChars ("\x7b\"a\": 1\x7d".data)) = some (.obj [("a", .num 1)])
    ∧ parseJsonResponse ("```json\n".data ++ ("\x7b\"a\": 1\x7d".data ++ "\n```".data))
        = .ok (.obj [("a", .num 1)]) :=
  ⟨rfl, rfl, fenced_json_extraction ("\x7b\"a\": 1\x7d".data) (.obj [("a", .num 1)]) rfl rfl⟩

/-- Claim C3, counterexample to the unrestricted claim: a json-fenced
well-formed object whose string values contain fence sequences is not
returned; the extractor instead returns the integer 3 parsed from a
spurious any-fence candidate found inside the object's own text. -/
theorem fenced_json_counterexample :
    parseJsonResponse
        ("```json\n\x7b\"a\": \"```\", \"b\": \"``` 3 ```\"\x7d\n```".data)
      = .ok (.num 3)
    ∧ parseJson (stripChars ("\x7b\"a\": \"```\", \"b\": \"``` 3 ```\"\x7d".data))
        = some (.obj [("a", .str "```"), ("b", .str "``` 3 ```")])
    ∧ Json.num 3 ≠ Json.obj [("a", .str "```"), ("b", .str "``` 3 ```")] := by
  refine ⟨rfl, rfl, ?_⟩
  intro h
  cases h
